import Mathlib

/-!
Verification development for the BLE lighting protocol engine
(`lighting-server/xim/ble_xim.py` and collaborators).

Bytes are modelled as `Nat` values below 256; byte strings as `List Nat`.
Python's little-endian list/int converters, the AES-CCM wrappers
(`AesCcmEncrypt` / `AesCcmDecrypt`, which call AES-CCM with a 13-byte
nonce, a 4-byte MIC and the single fixed associated-data byte 0x01),
the frame builders, and the relevant event handlers are translated to
pure Lean functions; mutable globals become explicit arguments and
results.
-/

set_option maxRecDepth 4000

/-- `ConvertListToInt(thisList)` from ble_xim.py (little-endian default):
`total = Σ thisList[i] * 256^i`. -/
def ConvertListToInt : List Nat → Nat
  | [] => 0
  | v :: rest => v + 256 * ConvertListToInt rest

/-- Big-endian digit extraction used inside `ConvertIntToList`:
repeatedly divides by `256^(length-1)`. -/
def ConvertIntToListBE : Nat → Nat → List Nat
  | _, 0 => []
  | value, n + 1 => (value / 256 ^ n) :: ConvertIntToListBE (value % 256 ^ n) n

/-- `ConvertIntToList(value, length)` from ble_xim.py with the default
`isLittleEndian = True`: big-endian digits, then reversed. -/
def ConvertIntToList (value length : Nat) : List Nat :=
  (ConvertIntToListBE value length).reverse

theorem ConvertIntToListBE_length (value n : Nat) :
    (ConvertIntToListBE value n).length = n := by
  induction n generalizing value with
  | zero => rfl
  | succ k ih => simp [ConvertIntToListBE, ih]

theorem ConvertIntToList_length (value n : Nat) :
    (ConvertIntToList value n).length = n := by
  simp [ConvertIntToList, ConvertIntToListBE_length]

/-! ### AES-128 block cipher (FIPS 197), as used by `AES.new(key, AES.MODE_CCM, ...)`

The state is the flat 16-byte block in the standard column-major layout
(byte `i` sits at row `i % 4`, column `i / 4`). -/

/-- Multiplication by x in GF(2^8) modulo x^8+x^4+x^3+x+1. -/
def xtime (a : Nat) : Nat :=
  if a < 128 then a * 2 else Nat.xor (a * 2) 0x11B

/-- Russian-peasant GF(2^8) product, 8 shift-and-add steps. -/
def gmulAux : Nat → Nat → Nat → Nat → Nat
  | 0, _, _, acc => acc
  | k + 1, a, b, acc =>
      gmulAux k (xtime a) (b / 2) (if b % 2 = 1 then Nat.xor acc a else acc)

def gmul (a b : Nat) : Nat := gmulAux 8 a b 0

def gpow : Nat → Nat → Nat
  | _, 0 => 1
  | b, n + 1 => gmul b (gpow b n)

/-- Multiplicative inverse in GF(2^8) (with 0 ↦ 0), via b^254. -/
def ginv (b : Nat) : Nat := gpow b 254

/-- Rotate an 8-bit value left by `n`. -/
def rotl8 (x n : Nat) : Nat :=
  Nat.lor (x * 2 ^ n % 256) (x / 2 ^ (8 - n))

/-- The AES S-box entry for byte `b`: GF(2^8) inverse followed by the
affine transform. -/
def sboxByte (b : Nat) : Nat :=
  let s := ginv b
  Nat.xor (Nat.xor (Nat.xor (Nat.xor (Nat.xor s (rotl8 s 1)) (rotl8 s 2)) (rotl8 s 3))
    (rotl8 s 4)) 0x63

def sbox : List Nat := (List.range 256).map sboxByte

def subByte (b : Nat) : Nat := sbox.getD b 0

/-- Round constants for AES-128 key expansion. -/
def rcon : List Nat := [1, 2, 4, 8, 16, 32, 64, 128, 27, 54]

def xorW (a b : List Nat) : List Nat := List.zipWith Nat.xor a b

def rotWord (w : List Nat) : List Nat := w.drop 1 ++ w.take 1

def subWord (w : List Nat) : List Nat := w.map subByte

/-- One key-expansion step: appends word `w[i]` given the previous words. -/
def ksStep (ws : List (List Nat)) : List (List Nat) :=
  let i := ws.length
  let wPrev := ws.getD (i - 1) []
  let wBack := ws.getD (i - 4) []
  let t := if i % 4 = 0 then
      xorW (subWord (rotWord wPrev)) [rcon.getD (i / 4 - 1) 0, 0, 0, 0]
    else wPrev
  ws ++ [xorW wBack t]

/-- The 44 expanded key words of AES-128. -/
def ksWords (key : List Nat) : List (List Nat) :=
  (List.range 40).foldl (fun ws _ => ksStep ws)
    [key.take 4, (key.drop 4).take 4, (key.drop 8).take 4, (key.drop 12).take 4]

def roundKey (key : List Nat) (r : Nat) : List Nat :=
  (((ksWords key).drop (4 * r)).take 4).flatten

/-- AddRoundKey on the flat 16-byte state. -/
def ark (s k : List Nat) : List Nat :=
  (List.range 16).map fun i => Nat.xor (s.getD i 0) (k.getD i 0)

def subBytes (s : List Nat) : List Nat := s.map subByte

/-- ShiftRows on the flat column-major state:
`out[r + 4c] = in[r + 4((c + r) mod 4)]`. -/
def shiftRows (s : List Nat) : List Nat :=
  (List.range 16).map fun i => s.getD (i % 4 + 4 * ((i / 4 + i % 4) % 4)) 0

def mixColumns (s : List Nat) : List Nat :=
  (List.range 16).map fun i =>
    let c := i / 4
    let a0 := s.getD (4 * c) 0
    let a1 := s.getD (4 * c + 1) 0
    let a2 := s.getD (4 * c + 2) 0
    let a3 := s.getD (4 * c + 3) 0
    if i % 4 = 0 then Nat.xor (Nat.xor (gmul 2 a0) (gmul 3 a1)) (Nat.xor a2 a3)
    else if i % 4 = 1 then Nat.xor (Nat.xor a0 (gmul 2 a1)) (Nat.xor (gmul 3 a2) a3)
    else if i % 4 = 2 then Nat.xor (Nat.xor a0 a1) (Nat.xor (gmul 2 a2) (gmul 3 a3))
    else Nat.xor (Nat.xor (gmul 3 a0) a1) (Nat.xor a2 (gmul 2 a3))

def aesRound (s k : List Nat) : List Nat := ark (mixColumns (shiftRows (subBytes s))) k

def aesFinalRound (s k : List Nat) : List Nat := ark (shiftRows (subBytes s)) k

/-- AES-128 single-block encryption. -/
def aesEncryptBlock (key block : List Nat) : List Nat :=
  let w := (List.range 11).map (roundKey key)
  aesFinalRound
    ((List.range 9).foldl (fun s i => aesRound s (w.getD (i + 1) []))
      (ark block (w.getD 0 [])))
    (w.getD 10 [])

theorem aesEncryptBlock_length (key block : List Nat) :
    (aesEncryptBlock key block).length = 16 := by
  simp [aesEncryptBlock, aesFinalRound, ark]

/-! ### CCM mode (RFC 3610), as configured by ble_xim.py:
13-byte nonce (so the length field L = 2), `mac_len = 4`, and the single
fixed associated-data byte 0x01 added via `cipher.update([1])`. -/

/-- The CTR block `A_i`: flags byte `L - 1 = 1`, the 13-byte nonce, and a
2-byte big-endian block counter. -/
def ccmCtrBlock (nonce : List Nat) (i : Nat) : List Nat :=
  1 :: (nonce ++ [i / 256 % 256, i % 256])

/-- The first `n` bytes of the CCM keystream `S_1 ‖ S_2 ‖ ...`. -/
def ccmKeystream (key nonce : List Nat) (n : Nat) : List Nat :=
  (((List.range ((n + 15) / 16)).map
    fun i => aesEncryptBlock key (ccmCtrBlock nonce (i + 1))).flatten).take n

/-- Zero-padded 16-byte blocks of a byte string. -/
def ccmPadBlocks (l : List Nat) : List (List Nat) :=
  if h : l = [] then []
  else (l.take 16 ++ List.replicate (16 - l.length) 0) :: ccmPadBlocks (l.drop 16)
termination_by l.length
decreasing_by
  simp only [List.length_drop]
  have := List.length_pos.mpr h
  omega

/-- The block `B_0`: flags byte 73 (AAD present, 4-byte MIC, `L = 2`),
the nonce, and the 2-byte big-endian message length. -/
def ccmB0 (nonce msg : List Nat) : List Nat :=
  73 :: (nonce ++ [msg.length / 256 % 256, msg.length % 256])

/-- The single encoded block of the fixed associated data `[0x01]`:
2-byte length 0x0001, the byte 0x01, zero padding to 16 bytes. -/
def ccmAadBlock : List Nat := [0, 1, 1] ++ List.replicate 13 0

/-- CBC-MAC value `T`: the first 4 bytes of `X_n`. -/
def ccmTag (key nonce msg : List Nat) : List Nat :=
  ((ccmB0 nonce msg :: ccmAadBlock :: ccmPadBlocks msg).foldl
    (fun x b => aesEncryptBlock key (List.zipWith Nat.xor x b))
    (List.replicate 16 0)).take 4

/-- The transmitted MIC `U = T xor (first 4 bytes of S_0)`. -/
def ccmFinalTag (key nonce msg : List Nat) : List Nat :=
  List.zipWith Nat.xor (ccmTag key nonce msg)
    ((aesEncryptBlock key (ccmCtrBlock nonce 0)).take 4)

/-- `AesCcmEncrypt(key, nonce, inData)` from ble_xim.py: returns the
ciphertext and the 4-byte MIC of AES-CCM with associated data [0x01]. -/
def AesCcmEncrypt (key nonce inData : List Nat) : List Nat × List Nat :=
  (List.zipWith Nat.xor inData (ccmKeystream key nonce inData.length),
   ccmFinalTag key nonce inData)

/-- `AesCcmDecrypt(key, nonce, inData, mac)` from ble_xim.py: CTR-decrypts
`inData` and reports `isValid` by recomputing the MIC over the decrypted
data (`cipher.verify`). -/
def AesCcmDecrypt (key nonce inData mac : List Nat) : List Nat × Bool :=
  let outData := List.zipWith Nat.xor inData (ccmKeystream key nonce inData.length)
  (outData, decide (ccmFinalTag key nonce outData = mac))

theorem ccmKeystream_length (key nonce : List Nat) (n : Nat) :
    (ccmKeystream key nonce n).length = n := by
  have hjoin : ∀ k, (((List.range k).map
      fun i => aesEncryptBlock key (ccmCtrBlock nonce (i + 1))).flatten).length = 16 * k := by
    intro k
    induction k with
    | zero => simp
    | succ m ih =>
        rw [List.range_succ]
        simp only [List.map_append, List.flatten_append, List.length_append, ih]
        simp [aesEncryptBlock_length]
        omega
  simp only [ccmKeystream, List.length_take, hjoin]
  omega

theorem zipWith_xor_cancel (a : List Nat) :
    ∀ b : List Nat, a.length ≤ b.length →
      List.zipWith Nat.xor (List.zipWith Nat.xor a b) b = a := by
  induction a with
  | nil => intro b _; simp
  | cons x xs ih =>
      intro b hb
      cases b with
      | nil => simp at hb
      | cons y ys =>
          simp only [List.zipWith, List.cons.injEq]
          refine ⟨Nat.xor_cancel_right y x, ih ys ?_⟩
          simpa using hb

theorem ccmMacFold_length (key : List Nat) :
    ∀ (l : List (List Nat)) (x : List Nat), x.length = 16 →
      ((l.foldl (fun x b => aesEncryptBlock key (List.zipWith Nat.xor x b)) x).length = 16) := by
  intro l
  induction l with
  | nil => intro x hx; simpa using hx
  | cons b bs ih =>
      intro x _
      rw [List.foldl_cons]
      exact ih _ (aesEncryptBlock_length key _)

theorem ccmFinalTag_length (key nonce msg : List Nat) :
    (ccmFinalTag key nonce msg).length = 4 := by
  have h := ccmMacFold_length key
    (ccmB0 nonce msg :: ccmAadBlock :: ccmPadBlocks msg) (List.replicate 16 0) (by simp)
  simp only [ccmFinalTag, ccmTag, List.length_zipWith, List.length_take, h,
    aesEncryptBlock_length]
  omega

theorem AesCcmEncrypt_fst_length (key nonce data : List Nat) :
    (AesCcmEncrypt key nonce data).1.length = data.length := by
  simp [AesCcmEncrypt, ccmKeystream_length]

/-- CTR decryption of CCM-encrypted data recovers the plaintext, and the
validity bit is the comparison of the recomputed MIC with the given one. -/
theorem AesCcmDecrypt_AesCcmEncrypt (key nonce data mac : List Nat) :
    AesCcmDecrypt key nonce (AesCcmEncrypt key nonce data).1 mac
      = (data, decide (ccmFinalTag key nonce data = mac)) := by
  have hct : (AesCcmEncrypt key nonce data).1.length = data.length :=
    AesCcmEncrypt_fst_length key nonce data
  have hks : (ccmKeystream key nonce data.length).length = data.length :=
    ccmKeystream_length key nonce data.length
  have hdata : List.zipWith Nat.xor (AesCcmEncrypt key nonce data).1
      (ccmKeystream key nonce (AesCcmEncrypt key nonce data).1.length) = data := by
    rw [hct]
    exact zipWith_xor_cancel data (ccmKeystream key nonce data.length) (le_of_eq hks.symm)
  simp only [AesCcmDecrypt, hdata]

/-- C1: for every 16-byte key, 13-byte nonce and plaintext byte list,
`AesCcmDecrypt` applied to the ciphertext and 4-byte tag produced by
`AesCcmEncrypt` (both including the fixed associated-data byte 0x01)
returns the original plaintext with `isValid = true`. -/
theorem aesCcm_encrypt_decrypt_roundtrip (key nonce plaintext : List Nat)
    (_hkey : key.length = 16) (_hnonce : nonce.length = 13) :
    AesCcmDecrypt key nonce (AesCcmEncrypt key nonce plaintext).1
      (AesCcmEncrypt key nonce plaintext).2 = (plaintext, true) := by
  rw [AesCcmDecrypt_AesCcmEncrypt]
  simp [AesCcmEncrypt]

/-- Witness for C1 at a concrete key, nonce and plaintext. -/
theorem aesCcm_encrypt_decrypt_roundtrip_witness :
    AesCcmDecrypt (List.replicate 16 0) (List.replicate 13 0)
      (AesCcmEncrypt (List.replicate 16 0) (List.replicate 13 0) [1, 2, 3]).1
      (AesCcmEncrypt (List.replicate 16 0) (List.replicate 13 0) [1, 2, 3]).2
      = ([1, 2, 3], true) :=
  aesCcm_encrypt_decrypt_roundtrip (List.replicate 16 0) (List.replicate 13 0)
    [1, 2, 3] (by simp) (by simp)

/-! ### Sequence issuance (C2) -/

/-- `XBX_SEQUENCE_ID_MAX_VALUE = 2 ** 32` from ble_xim.py. -/
def XBX_SEQUENCE_ID_MAX_VALUE : Nat := 2 ^ 32

/-- The sequence issuance performed by `SetXBAssignedPacket` and
`BroadcastIXBAssigned` before each assigned-form broadcast:
`txSqn += 1; if txSqn >= XBX_SEQUENCE_ID_MAX_VALUE: txSqn = 1`. -/
def nextTxSqn (txSqn : Nat) : Nat :=
  let t := txSqn + 1
  if XBX_SEQUENCE_ID_MAX_VALUE ≤ t then 1 else t

/-- C2: for every counter value up to `2^32 - 1`, the issued sequence is
never 0; it is the old value plus one, except that the value issued after
the maximum `2^32 - 1` is 1 (wraparound skips 0). -/
theorem nextTxSqn_spec (s : Nat) (hs : s ≤ 2 ^ 32 - 1) :
    nextTxSqn s ≠ 0 ∧
    (s = 2 ^ 32 - 1 → nextTxSqn s = 1) ∧
    (s < 2 ^ 32 - 1 → nextTxSqn s = s + 1) := by
  simp only [nextTxSqn, XBX_SEQUENCE_ID_MAX_VALUE]
  constructor
  · split <;> omega
  · constructor
    · intro h
      rw [if_pos (by omega)]
    · intro h
      rw [if_neg (by omega)]

/-- Witness for C2 at the wraparound boundary. -/
theorem nextTxSqn_spec_witness :
    nextTxSqn (2 ^ 32 - 1) ≠ 0 ∧
    (2 ^ 32 - 1 = 2 ^ 32 - 1 → nextTxSqn (2 ^ 32 - 1) = 1) ∧
    (2 ^ 32 - 1 < 2 ^ 32 - 1 → nextTxSqn (2 ^ 32 - 1) = 2 ^ 32 - 1 + 1) :=
  nextTxSqn_spec (2 ^ 32 - 1) (by omega)

/-! ### Receive-side sequence counter update (C10)

From `my_ble_evt_gap_scan_response`: after `XDecrypt` succeeds,
`if rxSqnTemp > networkConfigs[selectedRxNetworkIndex].txSqn:
networkConfigs[selectedRxNetworkIndex].txSqn = rxSqnTemp`; nothing is
stored when the frame fails authentication. -/

/-- One processed inbound frame, as it affects the receive credential
slot's stored sequence counter: the frame carries a decrypted sequence
number and the `isValid` outcome of `XDecrypt`. -/
def rxSqnStep (stored : Nat) (frame : Nat × Bool) : Nat :=
  if frame.2 ∧ stored < frame.1 then frame.1 else stored

theorem rxSqnStep_eq_max (s : Nat) (f : Nat × Bool) :
    rxSqnStep s f = if f.2 then max s f.1 else s := by
  simp only [rxSqnStep]
  cases hf : f.2 with
  | false => simp [hf]
  | true =>
      simp only [hf, if_pos, true_and]
      split <;> simp <;> omega

/-- C10: an authenticated frame never decreases the stored counter — it
raises it to the frame's sequence number exactly when that is larger —
and after any sequence of processed frames the stored counter is the
maximum of its initial value and the sequence numbers of the
authenticated frames. -/
theorem rxSqnStep_spec :
    (∀ (stored : Nat) (frame : Nat × Bool), stored ≤ rxSqnStep stored frame) ∧
    (∀ (stored : Nat) (frame : Nat × Bool), frame.2 = true → stored < frame.1 →
      rxSqnStep stored frame = frame.1) ∧
    (∀ (stored : Nat) (frame : Nat × Bool), frame.2 = true → frame.1 ≤ stored →
      rxSqnStep stored frame = stored) ∧
    (∀ (stored : Nat) (frame : Nat × Bool), frame.2 = false →
      rxSqnStep stored frame = stored) ∧
    (∀ (s0 : Nat) (frames : List (Nat × Bool)),
      frames.foldl rxSqnStep s0 =
        max s0 (((frames.filter fun f => f.2).map Prod.fst).foldr max 0)) := by
  refine ⟨?_, ?_, ?_, ?_, ?_⟩
  · intro stored frame
    simp only [rxSqnStep]
    split <;> omega
  · intro stored frame hv hlt
    simp [rxSqnStep, hv, hlt]
  · intro stored frame hv hle
    simp only [rxSqnStep]
    rw [if_neg (by omega)]
  · intro stored frame hv
    simp [rxSqnStep, hv]
  · intro s0 frames
    induction frames generalizing s0 with
    | nil => simp
    | cons f fs ih =>
        rw [List.foldl_cons, ih, rxSqnStep_eq_max]
        cases hv : f.2 with
        | false => simp [hv, List.filter_cons]
        | true =>
            simp only [hv, if_pos, List.filter_cons, List.map_cons, List.foldr_cons]
            omega

/-! ### Encrypted assigned-form frames: encode (`SetXBAssignedPacket`,
encrypted branch) and decode (`XDecrypt`) -/

/-- One credential slot (`NetworkConfig` in ble_xim.py): network id,
header key, application key, and the 32-bit transmit sequence counter. -/
structure NetworkConfig where
  id : List Nat
  headerKey : List Nat
  key : List Nat
  txSqn : Nat

/-- Python slice assignment `l[off : off + len(vals)] = vals` with an
equal-size replacement list. -/
def writeSlice (l : List Nat) (off : Nat) (vals : List Nat) : List Nat :=
  l.take off ++ vals ++ l.drop (off + vals.length)

/-- The header-nonce construction shared by `SetXBAssignedPacket` and
`XDecrypt`: 13 zero bytes whose first `min 13 (len payloadAndMic)` bytes
are overwritten with the payload ciphertext-plus-MIC. -/
def headerNonceFrom (payloadAndMic : List Nat) : List Nat :=
  payloadAndMic.take 13 ++ List.replicate (13 - payloadAndMic.length) 0

/-- Result of the encrypted branch of `SetXBAssignedPacket`: the
advertisement bytes, the updated global `aesNonce`, and the issued
sequence number. -/
structure AssignedPacket where
  packet : List Nat
  aesNonce : List Nat
  txSqn : Nat
deriving Repr, DecidableEq

/-- The encrypted branch of `SetXBAssignedPacket(destination, payloadType,
payload)` from ble_xim.py: issues the next sequence number, encrypts
`[payloadType] + destinationList + payload` with the application key
(admin key in admin mode) under the nonce `localId(2) ‖ sqn(4) ‖ rest of
the global aesNonce`, then encrypts the plaintext header
`localId(2) ‖ sqn(4) ‖ rfu(1)` with the header key under the nonce built
from the first 13 bytes of the just-produced ciphertext-plus-MIC, and
assembles the advertisement. -/
def SetXBAssignedPacketEnc (cfg : NetworkConfig) (adminMode : Bool)
    (adminKey : List Nat) (bleLocalDeviceId : Nat) (aesNonce0 : List Nat)
    (destination : List Nat) (payloadType : Nat) (payload0 : List Nat) :
    AssignedPacket :=
  let destinationList := ConvertIntToList (destination.getD 0 0) 2
  let payload := payloadType :: (destinationList ++ payload0)
  let txSqn := nextTxSqn cfg.txSqn
  let applicationKey := if adminMode then adminKey else cfg.key
  let aesNonce := writeSlice (writeSlice aesNonce0 0 (ConvertIntToList bleLocalDeviceId 2))
    2 (ConvertIntToList txSqn 4)
  let em := AesCcmEncrypt applicationKey aesNonce payload
  let headerByte := 0x80 + (cfg.id.getD 0 0 &&& 0x1F)
  let header := ConvertIntToList bleLocalDeviceId 2 ++ ConvertIntToList txSqn 4 ++ [0]
  let headerNonce := headerNonceFrom (em.1 ++ em.2)
  let encHeader := (AesCcmEncrypt cfg.headerKey headerNonce header).1
  { packet := [2, 1, 6, 15 + payload.length, 0xFF, 0x53, 0x02] ++ [headerByte]
      ++ encHeader.take 2 ++ (encHeader.drop 2).take 4 ++ (encHeader.drop 6).take 1
      ++ em.1 ++ em.2,
    aesNonce := aesNonce,
    txSqn := txSqn }

/-- The header bytes recovered inside `XDecrypt`: unauthenticated CTR
decryption of the received header under the receive slot's header key,
with the nonce rebuilt from the received ciphertext-plus-MIC. -/
def XDecryptHeader (rxHeaderKey header0 payloadAndMic : List Nat) : List Nat :=
  (AesCcmDecrypt rxHeaderKey (headerNonceFrom payloadAndMic) header0 [0, 0, 0, 0]).1

/-- The payload nonce reassembled by `XDecrypt`: the global `aesNonce`
with its first `len(header) - 1` bytes overwritten by the decrypted
header. -/
def XDecryptNonce (rxHeaderKey aesNonce0 header0 payloadAndMic : List Nat) : List Nat :=
  writeSlice aesNonce0 0 ((XDecryptHeader rxHeaderKey header0 payloadAndMic).take
    (header0.length - 1))

/-- Result of `XDecrypt`: decrypted header, decrypted payload, validity,
and the updated global `aesNonce`. -/
structure XDecryptResult where
  header : List Nat
  data : List Nat
  isValid : Bool
  aesNonce : List Nat
deriving Repr, DecidableEq

/-- `XDecrypt(header, payloadAndMic)` from ble_xim.py: rebuilds the header
nonce from the received ciphertext-plus-MIC, CTR-decrypts the header with
the receive slot's header key (validity ignored), splices the decrypted
header into the global `aesNonce`, then authenticates the payload with the
receive slot's key and, if that fails, retries once with the transmit
slot's key. -/
def XDecrypt (rxCfg txCfg : NetworkConfig) (aesNonce0 header0 payloadAndMic : List Nat) :
    XDecryptResult :=
  let payloadLength := payloadAndMic.length - 4
  let hd := XDecryptHeader rxCfg.headerKey header0 payloadAndMic
  let aesNonce := XDecryptNonce rxCfg.headerKey aesNonce0 header0 payloadAndMic
  let outMic := (payloadAndMic.drop payloadLength).take 4
  let d1 := AesCcmDecrypt rxCfg.key aesNonce (payloadAndMic.take payloadLength) outMic
  let d2 := if d1.2 = false then
      AesCcmDecrypt txCfg.key aesNonce (payloadAndMic.take payloadLength) outMic
    else d1
  { header := hd, data := d2.1, isValid := d2.2, aesNonce := aesNonce }

/-- C4: `XDecrypt` reports the frame authentic exactly when the receive
slot's key or the transmit slot's key authenticates it, and when the
receive-key attempt fails the delivered plaintext is the one produced by
the single retry with the transmit slot's key. -/
theorem XDecrypt_dual_key_fallback (rxCfg txCfg : NetworkConfig)
    (aesNonce0 header0 pam : List Nat) :
    (XDecrypt rxCfg txCfg aesNonce0 header0 pam).isValid =
      ((AesCcmDecrypt rxCfg.key (XDecryptNonce rxCfg.headerKey aesNonce0 header0 pam)
          (pam.take (pam.length - 4)) ((pam.drop (pam.length - 4)).take 4)).2
        || (AesCcmDecrypt txCfg.key (XDecryptNonce rxCfg.headerKey aesNonce0 header0 pam)
          (pam.take (pam.length - 4)) ((pam.drop (pam.length - 4)).take 4)).2) ∧
    (XDecrypt rxCfg txCfg aesNonce0 header0 pam).data =
      (if (AesCcmDecrypt rxCfg.key (XDecryptNonce rxCfg.headerKey aesNonce0 header0 pam)
          (pam.take (pam.length - 4)) ((pam.drop (pam.length - 4)).take 4)).2
       then (AesCcmDecrypt rxCfg.key (XDecryptNonce rxCfg.headerKey aesNonce0 header0 pam)
          (pam.take (pam.length - 4)) ((pam.drop (pam.length - 4)).take 4)).1
       else (AesCcmDecrypt txCfg.key (XDecryptNonce rxCfg.headerKey aesNonce0 header0 pam)
          (pam.take (pam.length - 4)) ((pam.drop (pam.length - 4)).take 4)).1) := by
  simp only [XDecrypt]
  cases hv : (AesCcmDecrypt rxCfg.key (XDecryptNonce rxCfg.headerKey aesNonce0 header0 pam)
      (pam.take (pam.length - 4)) ((pam.drop (pam.length - 4)).take 4)).2 with
  | false => simp [hv]
  | true => simp [hv]

theorem AesCcmEncrypt_snd_length (key nonce data : List Nat) :
    (AesCcmEncrypt key nonce data).2.length = 4 := by
  simp [AesCcmEncrypt, ccmFinalTag_length]

theorem take_append_of_eq (l₁ l₂ : List Nat) (n : Nat) (h : l₁.length = n) :
    (l₁ ++ l₂).take n = l₁ := by rw [← h, List.take_left]

theorem drop_append_of_eq (l₁ l₂ : List Nat) (n : Nat) (h : l₁.length = n) :
    (l₁ ++ l₂).drop n = l₂ := by rw [← h, List.drop_left]

theorem txNonce_eq (a0 v2 v4 : List Nat) (h2 : v2.length = 2) (h4 : v4.length = 4) :
    writeSlice (writeSlice a0 0 v2) 2 v4 = v2 ++ v4 ++ a0.drop 6 := by
  simp only [writeSlice, List.take_zero, List.nil_append, Nat.zero_add]
  rw [take_append_of_eq v2 _ 2 h2, h4]
  have hd6 : (v2 ++ a0.drop v2.length).drop (2 + 4) = a0.drop 6 := by
    rw [show (2 + 4 : Nat) = v2.length + 4 by rw [h2], List.drop_append, List.drop_drop, h2]
  rw [hd6, List.append_assoc]

theorem header_take6 (v2 v4 t : List Nat) (h2 : v2.length = 2) (h4 : v4.length = 4) :
    (v2 ++ (v4 ++ t)).take 6 = v2 ++ v4 := by
  rw [show (6 : Nat) = v2.length + 4 by rw [h2], List.take_append,
    take_append_of_eq v4 t 4 h4]

theorem drop8_cons (x0 x1 x2 x3 x4 x5 x6 x7 : Nat) (r : List Nat) :
    (x0 :: x1 :: x2 :: x3 :: x4 :: x5 :: x6 :: x7 :: r).drop 8 = r := rfl

theorem encHeader_reassemble (l r : List Nat) (h : l.length = 7) :
    l.take 2 ++ ((l.drop 2).take 4 ++ ((l.drop 6).take 1 ++ r)) = l ++ r := by
  have h1 : (l.drop 6).length = 1 := by simp [h]
  have ht1 : (l.drop 6).take 1 = l.drop 6 := by rw [← h1, List.take_length]
  calc l.take 2 ++ ((l.drop 2).take 4 ++ ((l.drop 6).take 1 ++ r))
      = (l.take 2 ++ (l.drop 2).take 4) ++ ((l.drop 6).take 1 ++ r) := by
        rw [List.append_assoc]
    _ = l.take 6 ++ (l.drop 6 ++ r) := by rw [← List.take_add, ht1]
    _ = (l.take 6 ++ l.drop 6) ++ r := by rw [List.append_assoc]
    _ = l ++ r := by rw [List.take_append_drop]

/-- C3: in the encrypted assigned-form encode, the emitted header field
(packet bytes 8..14) is the AES-CCM encryption, under `headerKey`, of the
plaintext header with a nonce equal to the zero-padded first 13 bytes of
the payload ciphertext-plus-MIC that occupies the rest of the packet
(bytes 15..) — so the payload is necessarily encrypted first — and
`XDecrypt` rebuilds the same header nonce from the received
ciphertext-plus-MIC, recovers the header and the inner payload, and
authenticates. -/
theorem SetXBAssigned_header_nonce_roundtrip
    (txCfg rxCfg txCfg2 : NetworkConfig) (adminMode : Bool) (adminKey : List Nat)
    (localId : Nat) (aTx0 aRx0 dest : List Nat) (payloadType : Nat)
    (payload0 : List Nat) (pkt nonceTx : List Nat) (sqn : Nat)
    (hkey : rxCfg.key = (if adminMode then adminKey else txCfg.key))
    (hhk : rxCfg.headerKey = txCfg.headerKey)
    (htail : aRx0.drop 6 = aTx0.drop 6)
    (hP : SetXBAssignedPacketEnc txCfg adminMode adminKey localId aTx0 dest
        payloadType payload0 = ⟨pkt, nonceTx, sqn⟩) :
    (pkt.drop 8).take 7
        = (AesCcmEncrypt txCfg.headerKey (headerNonceFrom (pkt.drop 15))
            (ConvertIntToList localId 2 ++ ConvertIntToList sqn 4 ++ [0])).1
    ∧ XDecrypt rxCfg txCfg2 aRx0 ((pkt.drop 8).take 7) (pkt.drop 15)
        = ⟨ConvertIntToList localId 2 ++ ConvertIntToList sqn 4 ++ [0],
           payloadType :: (ConvertIntToList (dest.getD 0 0) 2 ++ payload0),
           true, nonceTx⟩ := by
  simp only [SetXBAssignedPacketEnc] at hP
  injection hP with h1 h2 h3
  subst h1
  subst h2
  subst h3
  have hl2 : (ConvertIntToList localId 2).length = 2 := ConvertIntToList_length _ _
  have hl4 : (ConvertIntToList (nextTxSqn txCfg.txSqn) 4).length = 4 :=
    ConvertIntToList_length _ _
  rw [txNonce_eq aTx0 _ _ hl2 hl4]
  generalize hem : AesCcmEncrypt (if adminMode then adminKey else txCfg.key)
      (ConvertIntToList localId 2 ++ ConvertIntToList (nextTxSqn txCfg.txSqn) 4
        ++ aTx0.drop 6)
      (payloadType :: (ConvertIntToList (dest.getD 0 0) 2 ++ payload0)) = em
  have hHlen : (ConvertIntToList localId 2
      ++ ConvertIntToList (nextTxSqn txCfg.txSqn) 4 ++ [0]).length = 7 := by
    simp [hl2, hl4]
  have hEHlen : (AesCcmEncrypt txCfg.headerKey (headerNonceFrom (em.1 ++ em.2))
      (ConvertIntToList localId 2 ++ ConvertIntToList (nextTxSqn txCfg.txSqn) 4
        ++ [0])).1.length = 7 := by
    rw [AesCcmEncrypt_fst_length, hHlen]
  have hdrop8 : ([2, 1, 6, 15 + (payloadType ::
        (ConvertIntToList (dest.getD 0 0) 2 ++ payload0)).length, 0xFF, 0x53, 0x02]
      ++ [0x80 + (txCfg.id.getD 0 0 &&& 0x1F)]
      ++ (AesCcmEncrypt txCfg.headerKey (headerNonceFrom (em.1 ++ em.2))
          (ConvertIntToList localId 2 ++ ConvertIntToList (nextTxSqn txCfg.txSqn) 4
            ++ [0])).1.take 2
      ++ ((AesCcmEncrypt txCfg.headerKey (headerNonceFrom (em.1 ++ em.2))
          (ConvertIntToList localId 2 ++ ConvertIntToList (nextTxSqn txCfg.txSqn) 4
            ++ [0])).1.drop 2).take 4
      ++ ((AesCcmEncrypt txCfg.headerKey (headerNonceFrom (em.1 ++ em.2))
          (ConvertIntToList localId 2 ++ ConvertIntToList (nextTxSqn txCfg.txSqn) 4
            ++ [0])).1.drop 6).take 1
      ++ em.1 ++ em.2).drop 8
      = (AesCcmEncrypt txCfg.headerKey (headerNonceFrom (em.1 ++ em.2))
          (ConvertIntToList localId 2 ++ ConvertIntToList (nextTxSqn txCfg.txSqn) 4
            ++ [0])).1 ++ (em.1 ++ em.2) := by
    simp only [List.append_assoc, List.cons_append, List.nil_append]
    rw [drop8_cons]
    exact encHeader_reassemble _ _ hEHlen
  have htake7 := congrArg (List.take 7) hdrop8
  rw [take_append_of_eq _ _ 7 hEHlen] at htake7
  have hdrop15 := congrArg (List.drop 7) hdrop8
  rw [drop_append_of_eq _ _ 7 hEHlen] at hdrop15
  rw [List.drop_drop, show (8 + 7 : Nat) = 15 from rfl] at hdrop15
  rw [htake7, hdrop15]
  refine ⟨rfl, ?_⟩
  simp only [XDecrypt, XDecryptHeader, XDecryptNonce]
  rw [hhk, AesCcmDecrypt_AesCcmEncrypt]
  simp only [hEHlen]
  rw [show (7 - 1 : Nat) = 6 from rfl]
  have hh6 : (ConvertIntToList localId 2 ++ ConvertIntToList (nextTxSqn txCfg.txSqn) 4
      ++ [0], decide (ccmFinalTag txCfg.headerKey (headerNonceFrom (em.1 ++ em.2))
        (ConvertIntToList localId 2 ++ ConvertIntToList (nextTxSqn txCfg.txSqn) 4 ++ [0])
          = [0, 0, 0, 0])).1.take 6
      = ConvertIntToList localId 2 ++ ConvertIntToList (nextTxSqn txCfg.txSqn) 4 := by
    rw [List.append_assoc]
    exact header_take6 _ _ _ hl2 hl4
  rw [hh6]
  have hws : writeSlice aRx0 0 (ConvertIntToList localId 2
      ++ ConvertIntToList (nextTxSqn txCfg.txSqn) 4)
      = (ConvertIntToList localId 2 ++ ConvertIntToList (nextTxSqn txCfg.txSqn) 4)
        ++ aTx0.drop 6 := by
    simp only [writeSlice, List.take_zero, List.nil_append, Nat.zero_add,
      List.length_append, hl2, hl4]
    rw [show (2 + 4 : Nat) = 6 from rfl, htail]
  rw [hws]
  have hem1 : em.1.length
      = (payloadType :: (ConvertIntToList (dest.getD 0 0) 2 ++ payload0)).length := by
    rw [← hem]; exact AesCcmEncrypt_fst_length _ _ _
  have hem2 : em.2.length = 4 := by
    rw [← hem]; exact AesCcmEncrypt_snd_length _ _ _
  have hlm : (em.1 ++ em.2).length - 4
      = (payloadType :: (ConvertIntToList (dest.getD 0 0) 2 ++ payload0)).length := by
    simp [hem1, hem2]
  rw [hlm]
  rw [take_append_of_eq _ _ _ hem1, drop_append_of_eq _ _ _ hem1]
  have hmic : em.2.take 4 = em.2 := by rw [← hem2, List.take_length]
  rw [hmic, hkey, ← hem, AesCcmDecrypt_AesCcmEncrypt]
  simp [AesCcmEncrypt]

/-- Concrete transmit credential slot used by witnesses. -/
def sampleTxCfg : NetworkConfig :=
  { id := [1, 0, 0, 0], headerKey := List.replicate 16 7,
    key := List.replicate 16 9, txSqn := 5 }

/-- Concrete receive credential slot (same keys as `sampleTxCfg`). -/
def sampleRxCfg : NetworkConfig :=
  { id := [1, 0, 0, 0], headerKey := List.replicate 16 7,
    key := List.replicate 16 9, txSqn := 0 }

/-- A concrete encrypted assigned-form packet. -/
def samplePacket : AssignedPacket :=
  SetXBAssignedPacketEnc sampleTxCfg false [] 4660 (List.replicate 13 0) [3] 16 [10, 0]

/-- Witness for C3 at the concrete packet `samplePacket`. -/
theorem SetXBAssigned_header_nonce_roundtrip_witness :
    (samplePacket.packet.drop 8).take 7
        = (AesCcmEncrypt sampleTxCfg.headerKey
            (headerNonceFrom (samplePacket.packet.drop 15))
            (ConvertIntToList 4660 2 ++ ConvertIntToList samplePacket.txSqn 4 ++ [0])).1
    ∧ XDecrypt sampleRxCfg sampleTxCfg (List.replicate 13 0)
        ((samplePacket.packet.drop 8).take 7) (samplePacket.packet.drop 15)
        = ⟨ConvertIntToList 4660 2 ++ ConvertIntToList samplePacket.txSqn 4 ++ [0],
           16 :: (ConvertIntToList (([3] : List Nat).getD 0 0) 2 ++ [10, 0]),
           true, samplePacket.aesNonce⟩ :=
  SetXBAssigned_header_nonce_roundtrip sampleTxCfg sampleRxCfg sampleTxCfg false []
    4660 (List.replicate 13 0) (List.replicate 13 0) [3] 16 [10, 0]
    samplePacket.packet samplePacket.aesNonce samplePacket.txSqn rfl rfl rfl rfl

/-! ### Chunked GATT writes (`TransmitPacket`, ble_xim.py)

The transport interaction is abstracted by an acknowledgement oracle:
`ack i` is whether the `i`-th prepare-write got `bulkPacketTransferred`
with `packetStatus == 0` before `MAX_CHUNK_WAIT_TIME`, and `commitAck`
the same for the final execute-write. -/

def MAX_GATT_WRITE_SIZE : Nat := 20

def MAX_GATT_CHUNK_WRITE_SIZE : Nat := 18

/-- `chunkSize` as computed at the top of each loop iteration:
`MAX_GATT_CHUNK_WRITE_SIZE` when at least that much remains, else the
remainder. -/
def chunkSizeAt (txPacket : List Nat) (packetOffset : Nat) : Nat :=
  if MAX_GATT_CHUNK_WRITE_SIZE ≤ txPacket.length - packetOffset
  then MAX_GATT_CHUNK_WRITE_SIZE else txPacket.length - packetOffset

theorem chunkSizeAt_pos (txPacket : List Nat) (packetOffset : Nat)
    (h : txPacket.length - packetOffset ≠ 0) : 0 < chunkSizeAt txPacket packetOffset := by
  simp only [chunkSizeAt, MAX_GATT_CHUNK_WRITE_SIZE]
  split <;> omega

theorem chunkSizeAt_le (txPacket : List Nat) (packetOffset : Nat) :
    chunkSizeAt txPacket packetOffset ≤ txPacket.length - packetOffset
      ∨ chunkSizeAt txPacket packetOffset = MAX_GATT_CHUNK_WRITE_SIZE := by
  simp only [chunkSizeAt, MAX_GATT_CHUNK_WRITE_SIZE]
  split <;> omega

theorem chunkSizeAt_le18 (txPacket : List Nat) (packetOffset : Nat) :
    chunkSizeAt txPacket packetOffset ≤ 18 := by
  simp only [chunkSizeAt, MAX_GATT_CHUNK_WRITE_SIZE]
  split <;> omega

/-- The `while (len(txPacket) - packetOffset) > 0` prepare-write loop of
`TransmitPacket`: sends the chunk `txPacket[packetOffset : packetOffset +
chunkSize]` tagged with its offset, waits for its acknowledgement, and on
failure returns False immediately (the commented-out retry is dead code).
Returns the offset-tagged chunks actually sent and whether the loop
completed. -/
def bulkWriteLoop (ack : Nat → Bool) (txPacket : List Nat)
    (packetOffset chunkIdx : Nat) : List (Nat × List Nat) × Bool :=
  if h : txPacket.length - packetOffset = 0 then ([], true)
  else
    let chunk := (txPacket.drop packetOffset).take (chunkSizeAt txPacket packetOffset)
    if ack chunkIdx then
      let rest := bulkWriteLoop ack txPacket
        (packetOffset + chunkSizeAt txPacket packetOffset) (chunkIdx + 1)
      ((packetOffset, chunk) :: rest.1, rest.2)
    else ([(packetOffset, chunk)], false)
termination_by txPacket.length - packetOffset
decreasing_by
  have := chunkSizeAt_pos txPacket packetOffset h
  omega

/-- `TransmitPacket` with the write preconditions satisfied (connected,
handle known, no pending write): single `attribute_write` for packets of
at most 20 bytes (no prepare-write chunks), otherwise the prepare-write
loop followed by the `execute_write` commit; True is returned only when
the loop completed and the commit was acknowledged. -/
def TransmitPacketModel (ack : Nat → Bool) (commitAck : Bool) (txPacket : List Nat) :
    List (Nat × List Nat) × Bool :=
  if txPacket.length ≤ MAX_GATT_WRITE_SIZE then ([], ack 0)
  else
    let r := bulkWriteLoop ack txPacket 0 0
    if r.2 then (r.1, commitAck) else (r.1, false)

theorem bulkWriteLoop_done (ack : Nat → Bool) (txPacket : List Nat)
    (packetOffset chunkIdx : Nat) (h : txPacket.length - packetOffset = 0) :
    bulkWriteLoop ack txPacket packetOffset chunkIdx = ([], true) := by
  rw [bulkWriteLoop, dif_pos h]

theorem bulkWriteLoop_step_ok (ack : Nat → Bool) (txPacket : List Nat)
    (off idx : Nat) (h : txPacket.length - off ≠ 0) (ha : ack idx = true) :
    bulkWriteLoop ack txPacket off idx =
      ((off, (txPacket.drop off).take (chunkSizeAt txPacket off))
          :: (bulkWriteLoop ack txPacket (off + chunkSizeAt txPacket off) (idx + 1)).1,
       (bulkWriteLoop ack txPacket (off + chunkSizeAt txPacket off) (idx + 1)).2) := by
  rw [bulkWriteLoop, dif_neg h]
  simp [ha]

theorem bulkWriteLoop_step_fail (ack : Nat → Bool) (txPacket : List Nat)
    (off idx : Nat) (h : txPacket.length - off ≠ 0) (ha : ack idx = false) :
    bulkWriteLoop ack txPacket off idx =
      ([(off, (txPacket.drop off).take (chunkSizeAt txPacket off))], false) := by
  rw [bulkWriteLoop, dif_neg h]
  simp [ha]

theorem bulkWriteLoop_spec (ack : Nat → Bool) (txPacket : List Nat) :
    ∀ (n packetOffset chunkIdx : Nat), txPacket.length - packetOffset ≤ n →
      (((bulkWriteLoop ack txPacket packetOffset chunkIdx).2 = true ↔
        ∀ j, j < (txPacket.length - packetOffset + 17) / 18 →
          ack (chunkIdx + j) = true) ∧
      ((bulkWriteLoop ack txPacket packetOffset chunkIdx).2 = true →
        ((bulkWriteLoop ack txPacket packetOffset chunkIdx).1.map Prod.snd).flatten
          = txPacket.drop packetOffset) ∧
      (∀ w ∈ (bulkWriteLoop ack txPacket packetOffset chunkIdx).1,
        packetOffset ≤ w.1 ∧ w.2.length ≤ 18 ∧ w.2 ≠ [] ∧
          w.2 = (txPacket.drop w.1).take w.2.length) ∧
      List.Pairwise (fun a b => a.1 < b.1)
        (bulkWriteLoop ack txPacket packetOffset chunkIdx).1) := by
  intro n
  induction n with
  | zero =>
      intro off idx h
      have h0 : txPacket.length - off = 0 := Nat.le_zero.mp h
      rw [bulkWriteLoop_done ack txPacket off idx h0]
      refine ⟨?_, ?_, ?_, ?_⟩
      · constructor
        · intro _ j hj
          omega
        · intro _
          rfl
      · intro _
        exact (List.drop_eq_nil_of_le (by omega)).symm
      · intro w hw
        simp at hw
      · simp
  | succ m ih =>
      intro off idx h
      by_cases h0 : txPacket.length - off = 0
      · rw [bulkWriteLoop_done ack txPacket off idx h0]
        refine ⟨?_, ?_, ?_, ?_⟩
        · constructor
          · intro _ j hj
            omega
          · intro _
            rfl
        · intro _
          exact (List.drop_eq_nil_of_le (by omega)).symm
        · intro w hw
          simp at hw
        · simp
      · have hcpos := chunkSizeAt_pos txPacket off h0
        have hc18 := chunkSizeAt_le18 txPacket off
        have hc2 : (chunkSizeAt txPacket off = 18 ∧ 18 ≤ txPacket.length - off)
            ∨ (chunkSizeAt txPacket off = txPacket.length - off
                ∧ txPacket.length - off < 18) := by
          simp only [chunkSizeAt, MAX_GATT_CHUNK_WRITE_SIZE]
          split <;> omega
        have hcle : chunkSizeAt txPacket off ≤ txPacket.length - off := by omega
        have hchunklen : ((txPacket.drop off).take (chunkSizeAt txPacket off)).length
            = chunkSizeAt txPacket off := by
          simp only [List.length_take, List.length_drop]
          omega
        have harith : (txPacket.length - off + 17) / 18
            = (txPacket.length - (off + chunkSizeAt txPacket off) + 17) / 18 + 1 := by
          rcases hc2 with ⟨hcc, hcb⟩ | ⟨hcc, hcb⟩ <;> omega
        cases hack : ack idx with
        | false =>
            rw [bulkWriteLoop_step_fail ack txPacket off idx h0 hack]
            refine ⟨?_, ?_, ?_, ?_⟩
            · constructor
              · intro hf
                simp at hf
              · intro hall
                exfalso
                have hv := hall 0 (by omega)
                rw [Nat.add_zero, hack] at hv
                simp at hv
            · intro hf
              simp at hf
            · intro w hw
              simp only [List.mem_singleton] at hw
              subst hw
              dsimp only
              refine ⟨Nat.le_refl _, ?_, ?_, ?_⟩
              · rw [hchunklen]; exact hc18
              · intro hnil
                rw [hnil] at hchunklen
                simp at hchunklen
                omega
              · rw [hchunklen]
            · simp
        | true =>
            rw [bulkWriteLoop_step_ok ack txPacket off idx h0 hack]
            obtain ⟨r1, r2, r3, r4⟩ :=
              ih (off + chunkSizeAt txPacket off) (idx + 1) (by omega)
            refine ⟨?_, ?_, ?_, ?_⟩
            · rw [r1]
              constructor
              · intro hall j hj
                cases j with
                | zero => simpa using hack
                | succ jj =>
                    have hb : jj < (txPacket.length
                        - (off + chunkSizeAt txPacket off) + 17) / 18 := by omega
                    have hv := hall jj hb
                    have he : idx + 1 + jj = idx + (jj + 1) := by omega
                    rw [he] at hv
                    exact hv
              · intro hall j hj
                have hb : j + 1 < (txPacket.length - off + 17) / 18 := by omega
                have hv := hall (j + 1) hb
                have he : idx + (j + 1) = idx + 1 + j := by omega
                rw [he] at hv
                exact hv
            · intro hok
              simp only [List.map_cons, List.flatten_cons]
              rw [r2 hok]
              have hdd : txPacket.drop (off + chunkSizeAt txPacket off)
                  = (txPacket.drop off).drop (chunkSizeAt txPacket off) :=
                (List.drop_drop _ _ _).symm
              rw [hdd, List.take_append_drop]
            · intro w hw
              simp only [List.mem_cons] at hw
              rcases hw with hw | hw
              · subst hw
                dsimp only
                refine ⟨Nat.le_refl _, ?_, ?_, ?_⟩
                · rw [hchunklen]; exact hc18
                · intro hnil
                  rw [hnil] at hchunklen
                  simp at hchunklen
                  omega
                · rw [hchunklen]
              · obtain ⟨hw1, hw2, hw3, hw4⟩ := r3 w hw
                exact ⟨by omega, hw2, hw3, hw4⟩
            · refine List.pairwise_cons.mpr ⟨?_, r4⟩
              intro b hb
              have := (r3 b hb).1
              omega

/-- C5: for a payload longer than the 20-byte single-write limit,
`TransmitPacket` sends offset-tagged chunks of at most 18 bytes, each the
slice of the payload at its offset, sent at most once (offsets strictly
increase — a failed chunk is never retried); it returns True exactly when
every required chunk and the commit were acknowledged, and on True the
sent chunks reassemble the whole payload — partial success is never
reported. -/
theorem TransmitPacket_chunked_spec (ack : Nat → Bool) (commitAck : Bool)
    (txPacket : List Nat) (hlong : MAX_GATT_WRITE_SIZE < txPacket.length) :
    (∀ w ∈ (TransmitPacketModel ack commitAck txPacket).1,
      w.2.length ≤ MAX_GATT_CHUNK_WRITE_SIZE ∧ w.2 ≠ [] ∧
        w.2 = (txPacket.drop w.1).take w.2.length) ∧
    List.Pairwise (fun a b => a.1 < b.1) (TransmitPacketModel ack commitAck txPacket).1 ∧
    ((TransmitPacketModel ack commitAck txPacket).2 = true ↔
      (commitAck = true ∧ ∀ j, j < (txPacket.length + 17) / 18 → ack j = true)) ∧
    ((TransmitPacketModel ack commitAck txPacket).2 = true →
      ((TransmitPacketModel ack commitAck txPacket).1.map Prod.snd).flatten
        = txPacket) := by
  have h20 : ¬txPacket.length ≤ MAX_GATT_WRITE_SIZE := by
    simp only [MAX_GATT_WRITE_SIZE] at hlong ⊢
    omega
  simp only [TransmitPacketModel, if_neg h20, MAX_GATT_CHUNK_WRITE_SIZE]
  obtain ⟨s1, s2, s3, s4⟩ :=
    bulkWriteLoop_spec ack txPacket txPacket.length 0 0 (by omega)
  simp only [Nat.sub_zero, Nat.zero_add, List.drop_zero] at s1 s2 s3
  cases hr : (bulkWriteLoop ack txPacket 0 0).2 with
  | false =>
      simp only [Bool.false_eq_true, if_false]
      rw [hr] at s1 s2
      refine ⟨?_, ?_, ?_, ?_⟩
      · intro w hw
        obtain ⟨_, hw2, hw3, hw4⟩ := s3 w hw
        exact ⟨hw2, hw3, hw4⟩
      · exact s4
      · constructor
        · intro hf
          simp at hf
        · intro ⟨_, hall⟩
          exfalso
          have := s1.mpr hall
          simp at this
      · intro hf
        simp at hf
  | true =>
      simp only [if_true]
      rw [hr] at s1 s2
      refine ⟨?_, ?_, ?_, ?_⟩
      · intro w hw
        obtain ⟨_, hw2, hw3, hw4⟩ := s3 w hw
        exact ⟨hw2, hw3, hw4⟩
      · exact s4
      · constructor
        · intro hc
          exact ⟨hc, s1.mp rfl⟩
        · intro ⟨hc, _⟩
          exact hc
      · intro _
        exact s2 rfl

/-- Witness for C5: a 21-byte payload with every acknowledgement positive. -/
theorem TransmitPacket_chunked_spec_witness :
    (∀ w ∈ (TransmitPacketModel (fun _ => true) true (List.replicate 21 5)).1,
      w.2.length ≤ MAX_GATT_CHUNK_WRITE_SIZE ∧ w.2 ≠ [] ∧
        w.2 = ((List.replicate 21 5).drop w.1).take w.2.length) ∧
    List.Pairwise (fun a b => a.1 < b.1)
      (TransmitPacketModel (fun _ => true) true (List.replicate 21 5)).1 ∧
    ((TransmitPacketModel (fun _ => true) true (List.replicate 21 5)).2 = true ↔
      (true = true ∧ ∀ j, j < ((List.replicate 21 5).length + 17) / 18 →
        (fun _ => true) j = true)) ∧
    ((TransmitPacketModel (fun _ => true) true (List.replicate 21 5)).2 = true →
      ((TransmitPacketModel (fun _ => true) true (List.replicate 21 5)).1.map
        Prod.snd).flatten = List.replicate 21 5) :=
  TransmitPacket_chunked_spec (fun _ => true) true (List.replicate 21 5)
    (by simp [MAX_GATT_WRITE_SIZE])

/-! ### Group-membership segments (`ProcessXBeaconGroupFields`) -/

def NUM_GROUPS : Nat := 16

def GROUP_MEMBER_LENGTH : Nat := 2

def XGROUP_LAST_PACKET_FLAG : Nat := 0x80

def XBGROUP_HEADER_LENGTH : Nat := 1

def XBGROUP_MEMBERS_OFFSET : Nat := 1

def GROUP_MEMBER_UNASSIGNED : Nat := 0xFFFF

/-- `groupOffset = this_field[0] & ~XGROUP_LAST_PACKET_FLAG` (advertisement
bytes are below 256, so this is `& 0x7F`). -/
def xgroupOffset (this_field : List Nat) : Nat := this_field.getD 0 0 &&& 0x7F

/-- `numAdvGroups = (len(this_field) - XBGROUP_HEADER_LENGTH) / GROUP_MEMBER_LENGTH`. -/
def xgroupCount (this_field : List Nat) : Nat :=
  (this_field.length - XBGROUP_HEADER_LENGTH) / GROUP_MEMBER_LENGTH

/-- `ProcessXBeaconGroupFields(device, this_field)` from ble_xim.py, as it
acts on `device.groups` (16 `None`-initialised slots) and
`device.receivedAllGroups`: writes the segment's 2-byte little-endian slot
values at the reported offset (out-of-range slots dropped), and on the
last-packet flag fills every trailing slot with the unassigned sentinel
and recomputes completeness as "no `None` below offset + count". -/
def ProcessXBeaconGroupFields (groups : List (Option Nat))
    (receivedAllGroups : Bool) (this_field : List Nat) :
    List (Option Nat) × Bool :=
  let groupOffset := xgroupOffset this_field
  let numAdvGroups := xgroupCount this_field
  let g1 := (List.range numAdvGroups).foldl
    (fun g i => g.set (groupOffset + i)
      (some (ConvertListToInt ((this_field.drop (XBGROUP_MEMBERS_OFFSET
        + i * GROUP_MEMBER_LENGTH)).take GROUP_MEMBER_LENGTH))))
    groups
  if this_field.getD 0 0 &&& XGROUP_LAST_PACKET_FLAG ≠ 0 then
    let g2 := g1.take (groupOffset + numAdvGroups)
      ++ List.replicate (NUM_GROUPS - (groupOffset + numAdvGroups))
        (some GROUP_MEMBER_UNASSIGNED)
    (g2, !decide (none ∈ g2.take (groupOffset + numAdvGroups)))
  else (g1, receivedAllGroups)

theorem length_foldl_set (xs : List Nat) :
    ∀ (acc : List (Option Nat)) (f : Nat → Nat) (v : Nat → Option Nat),
      (xs.foldl (fun g i => g.set (f i) (v i)) acc).length = acc.length := by
  induction xs with
  | nil => intro acc f v; rfl
  | cons x xs ih =>
      intro acc f v
      rw [List.foldl_cons, ih]
      exact List.length_set acc (f x) (v x)

theorem tail_fill_spec (g1 : List (Option Nat)) (a : Nat) (hlen : g1.length = 16) :
    (∀ j, a ≤ j → j < 16 →
      (g1.take a ++ List.replicate (16 - a) (some GROUP_MEMBER_UNASSIGNED)).getD j none
        = some GROUP_MEMBER_UNASSIGNED) ∧
    ((!decide (none ∈ (g1.take a ++ List.replicate (16 - a)
        (some GROUP_MEMBER_UNASSIGNED)).take a)) = true →
      ∀ j, j < a → j < 16 →
        ((g1.take a ++ List.replicate (16 - a)
          (some GROUP_MEMBER_UNASSIGNED)).getD j none).isSome) := by
  have htlen : (g1.take a).length = min a 16 := by
    rw [List.length_take, hlen]
  have hg2len : (g1.take a ++ List.replicate (16 - a)
      (some GROUP_MEMBER_UNASSIGNED)).length = 16 := by
    rw [List.length_append, htlen, List.length_replicate]
    omega
  constructor
  · intro j hja hj16
    rw [List.getD_append_right _ _ _ j (by omega)]
    rw [List.getD_eq_getElem _ _ (by simp only [List.length_replicate]; omega)]
    exact List.getElem_replicate _ _
  · intro hc j hja hj16
    have hnone : ¬(none ∈ (g1.take a ++ List.replicate (16 - a)
        (some GROUP_MEMBER_UNASSIGNED)).take a) := by
      intro hmem
      rw [decide_eq_true hmem] at hc
      simp at hc
    have hjlt : j < ((g1.take a ++ List.replicate (16 - a)
        (some GROUP_MEMBER_UNASSIGNED)).take a).length := by
      rw [List.length_take, hg2len]
      omega
    have hmem := List.getElem_mem hjlt
    rw [List.getElem_take] at hmem
    rw [List.getD_eq_getElem _ _ (by omega)]
    cases he : (g1.take a ++ List.replicate (16 - a)
        (some GROUP_MEMBER_UNASSIGNED))[j] with
    | none =>
        exfalso
        rw [he] at hmem
        exact hnone hmem
    | some v => rfl

/-- C6: feeding the group resolver the segment (offset 0, 5 slot values,
last-packet flag clear) and then the segment (offset 5, 11 slot values,
last-packet flag set) yields a complete 16-slot table with no gaps; and in
general a last-packet segment fills every slot above the received range
with the unassigned sentinel 0xFFFF, while the completeness flag is set
only if no slot below the observed offset remains unfilled. -/
theorem ProcessXBeaconGroupFields_spec :
    ((ProcessXBeaconGroupFields
        (ProcessXBeaconGroupFields (List.replicate 16 none) false
          [0, 1, 0, 2, 0, 3, 0, 4, 0, 5, 0]).1
        (ProcessXBeaconGroupFields (List.replicate 16 none) false
          [0, 1, 0, 2, 0, 3, 0, 4, 0, 5, 0]).2
        [133, 6, 0, 7, 0, 8, 0, 9, 0, 10, 0, 11, 0, 12, 0,
          13, 0, 14, 0, 15, 0, 16, 0]).2 = true
      ∧ ∀ x ∈ (ProcessXBeaconGroupFields
        (ProcessXBeaconGroupFields (List.replicate 16 none) false
          [0, 1, 0, 2, 0, 3, 0, 4, 0, 5, 0]).1
        (ProcessXBeaconGroupFields (List.replicate 16 none) false
          [0, 1, 0, 2, 0, 3, 0, 4, 0, 5, 0]).2
        [133, 6, 0, 7, 0, 8, 0, 9, 0, 10, 0, 11, 0, 12, 0,
          13, 0, 14, 0, 15, 0, 16, 0]).1, x.isSome) ∧
    (∀ (groups : List (Option Nat)) (rag : Bool) (this_field : List Nat),
      groups.length = NUM_GROUPS →
      this_field.getD 0 0 &&& XGROUP_LAST_PACKET_FLAG ≠ 0 →
      (∀ j, xgroupOffset this_field + xgroupCount this_field ≤ j → j < NUM_GROUPS →
        (ProcessXBeaconGroupFields groups rag this_field).1.getD j none
          = some GROUP_MEMBER_UNASSIGNED) ∧
      ((ProcessXBeaconGroupFields groups rag this_field).2 = true →
        ∀ j, j < xgroupOffset this_field → j < NUM_GROUPS →
          ((ProcessXBeaconGroupFields groups rag this_field).1.getD j none).isSome)) := by
  refine ⟨⟨by decide, by decide⟩, ?_⟩
  intro groups rag this_field hlen hflag
  have hg1len : ((List.range (xgroupCount this_field)).foldl
      (fun g i => g.set (xgroupOffset this_field + i)
        (some (ConvertListToInt ((this_field.drop (XBGROUP_MEMBERS_OFFSET
          + i * GROUP_MEMBER_LENGTH)).take GROUP_MEMBER_LENGTH))))
      groups).length = 16 := by
    rw [length_foldl_set (List.range (xgroupCount this_field)) groups
      (fun i => xgroupOffset this_field + i)
      (fun i => some (ConvertListToInt ((this_field.drop (XBGROUP_MEMBERS_OFFSET
        + i * GROUP_MEMBER_LENGTH)).take GROUP_MEMBER_LENGTH))), hlen]
    rfl
  obtain ⟨hfill, honly⟩ := tail_fill_spec _
    (xgroupOffset this_field + xgroupCount this_field) hg1len
  simp only [ProcessXBeaconGroupFields, NUM_GROUPS] at hfill honly ⊢
  rw [if_pos hflag]
  constructor
  · intro j hja hj16
    exact hfill j hja hj16
  · intro hc j hjo hj16
    exact honly hc j (by omega) hj16

/-! ### Unexpected-disconnection handling
(`my_ble_evt_connection_disconnected`, ble_xim.py) -/

def MAX_UNEXPECTED_DISCONNECTIONS : Nat := 3

def STATE_STANDBY : Nat := 0

def STATE_CONNECTING : Nat := 1

def STATE_LISTENING_DATA : Nat := 6

def STATE_DISCONNECTING : Nat := 7

structure BleDeviceConn where
  connectionState : Nat
  unexpectedDisconnections : Nat
  connectionHandle : Option Nat
deriving Repr, DecidableEq

/-- The per-device effect of `my_ble_evt_connection_disconnected`: a
disconnect while not in `STATE_DISCONNECTING`/`STATE_STANDBY` is
unexpected — the counter is incremented and, when it is still at most
`MAX_UNEXPECTED_DISCONNECTIONS`, `EnableConnections` and `Connect` are
called (`Connect` moves the device to `Connecting`); otherwise the device
stays in `Standby`. An expected disconnect resets the counter.
`TestConnection` only sends a get-connections query, so the
`connection_handle == None` re-check always passes here. The returned
Bool is whether an automatic reconnection attempt was issued. -/
def my_ble_evt_connection_disconnected (d : BleDeviceConn) : BleDeviceConn × Bool :=
  if d.connectionState ≠ STATE_DISCONNECTING ∧ d.connectionState ≠ STATE_STANDBY then
    let u := d.unexpectedDisconnections + 1
    if u ≤ MAX_UNEXPECTED_DISCONNECTIONS then
      ({ connectionState := STATE_CONNECTING, unexpectedDisconnections := u,
         connectionHandle := none }, true)
    else
      ({ connectionState := STATE_STANDBY, unexpectedDisconnections := u,
         connectionHandle := none }, false)
  else
    ({ connectionState := STATE_STANDBY, unexpectedDisconnections := 0,
       connectionHandle := none }, false)

/-- A successful (re)connection bringing the device to `ListeningData`
with a live connection handle. -/
def reconnectSuccess (d : BleDeviceConn) : BleDeviceConn :=
  { d with connectionState := STATE_LISTENING_DATA, connectionHandle := some 1 }

/-- `n` consecutive unexpected disconnections, the device reconnecting
successfully before each one. Returns the device state after the `n`-th
disconnect event and whether that event triggered a reconnection
attempt. -/
def discRun (d : BleDeviceConn) : Nat → BleDeviceConn × Bool
  | 0 => (d, false)
  | n + 1 => my_ble_evt_connection_disconnected (reconnectSuccess (discRun d n).1)

/-- A freshly connected device with no unexpected disconnections. -/
def connectedDevice : BleDeviceConn :=
  { connectionState := STATE_LISTENING_DATA, unexpectedDisconnections := 0,
    connectionHandle := some 1 }

/-- Counterexample to C7 as stated: after the third consecutive unexpected
disconnection the handler still issues an automatic reconnection attempt
(the code reconnects while `unexpectedDisconnections <=
MAX_UNEXPECTED_DISCONNECTIONS = 3`), and the device is left `Connecting`,
not `Standby`. -/
theorem third_disconnect_still_reconnects :
    (discRun connectedDevice 3).2 = true
      ∧ (discRun connectedDevice 3).1.connectionState ≠ STATE_STANDBY := by
  decide

/-- C7 (amended): after four consecutive unexpected disconnections — the
first count exceeding `MAX_UNEXPECTED_DISCONNECTIONS = 3` — the device is
left in `Standby` and the handler makes no automatic reconnection attempt
on that event or on any later one of the run (the counter only grows, and
is reset only by a disconnect observed in
`Standby`/`Disconnecting`). -/
theorem fourth_disconnect_goes_passive (n : Nat) (hn : 4 ≤ n) :
    discRun connectedDevice n
      = ({ connectionState := STATE_STANDBY, unexpectedDisconnections := n,
           connectionHandle := none }, false) := by
  induction n with
  | zero => omega
  | succ m ih =>
      by_cases hm : 4 ≤ m
      · have hstep : discRun connectedDevice (m + 1)
            = my_ble_evt_connection_disconnected
                (reconnectSuccess (discRun connectedDevice m).1) := rfl
        rw [hstep, ih hm]
        dsimp only [reconnectSuccess, my_ble_evt_connection_disconnected,
          STATE_LISTENING_DATA, STATE_DISCONNECTING, STATE_STANDBY,
          STATE_CONNECTING, MAX_UNEXPECTED_DISCONNECTIONS]
        rw [if_pos (by decide : (6 : Nat) ≠ 7 ∧ (6 : Nat) ≠ 0),
          if_neg (by omega : ¬(m + 1 ≤ 3))]
      · have hm3 : m = 3 := by omega
        subst hm3
        decide

/-- Witness for the amended C7 at five consecutive disconnections. -/
theorem fourth_disconnect_goes_passive_witness :
    discRun connectedDevice 5
      = ({ connectionState := STATE_STANDBY, unexpectedDisconnections := 5,
           connectionHandle := none }, false) :=
  fourth_disconnect_goes_passive 5 (by decide)

/-! ### Persisted-file rewrites (`UpdateAttributeInfoFile`,
`UpdateNetworkConfigFile`, `LogHandler.RenameSafely`) -/

/-- Filesystem operations emitted by the persistence code. File contents
are irrelevant to the rewrite pattern and omitted. -/
inductive FsOp where
  | readLines (path : String)
  | openForWrite (path : String)
  | removeFile (path : String)
  | renameFile (src dst : String)
deriving Repr, DecidableEq

def uuidHandleMapFileName : String := "UUID_Handle_Map.csv"

def uuidHandleMapFileNameTemp : String := "UUID_Handle_Map.tmp"

def bleNetworkConfigFileName : String := "BLE_Network_Config.txt"

/-- One characteristic entry as serialised into a handle-map line. -/
structure AttrEntry where
  handle : Option Nat
  cccHandle : Option Nat
  hasCCC : Bool

/-- The `hasNullHandle` flag computed while building the new line:
set when any expected handle (or CCC handle) is missing. -/
def hasNullHandle (attrs : List AttrEntry) : Bool :=
  attrs.any fun attr => attr.handle == none || (attr.hasCCC && attr.cccHandle == none)

/-- `LogHandler.RenameSafely(newFileName, oldFileName)`: removes the old
file when both files exist, then renames the new file onto the old name
once the old name is free — remove-then-rename. -/
def RenameSafely (oldExists newExists : Bool) (newFileName oldFileName : String) :
    List FsOp :=
  if newExists then
    (if oldExists then [FsOp.removeFile oldFileName] else [])
      ++ [FsOp.renameFile newFileName oldFileName]
  else []

/-- The filesystem trace of `UpdateAttributeInfoFile` (XIM branch): reads
the live handle-map file and — only when no expected handle is missing —
writes the whole new content to the `.tmp` file and calls
`RenameSafely(temp, live)`; both files exist at that point. -/
def UpdateAttributeInfoFile (attrs : List AttrEntry) : List FsOp :=
  [FsOp.readLines uuidHandleMapFileName]
    ++ (if hasNullHandle attrs then []
        else [FsOp.openForWrite uuidHandleMapFileNameTemp]
          ++ RenameSafely true true uuidHandleMapFileNameTemp uuidHandleMapFileName)

/-- The filesystem trace of `UpdateNetworkConfigFile`: opens the live
credential file directly in write mode
(`open(bleNetworkConfigFileName, 'w')`). -/
def UpdateNetworkConfigFile : List FsOp :=
  [FsOp.openForWrite bleNetworkConfigFileName]

/-- Counterexample to C8 as stated: the credential-file rewrite opens the
live file for writing and performs no rename at all. -/
theorem updateNetworkConfigFile_overwrites_in_place :
    FsOp.openForWrite bleNetworkConfigFileName ∈ UpdateNetworkConfigFile
      ∧ ∀ op ∈ UpdateNetworkConfigFile, ∀ s d, op ≠ FsOp.renameFile s d := by
  refine ⟨by simp [UpdateNetworkConfigFile], ?_⟩
  intro op hop s d
  simp only [UpdateNetworkConfigFile, List.mem_singleton] at hop
  subst hop
  simp

/-- C8 (amended): the handle-map cache file is rewritten by writing the
whole content to a temp file, removing the old file, and renaming the
temp into place — the live handle-map file is never opened for writing —
while the credential file is rewritten by opening the live file directly
in write mode, with no temp file and no rename. -/
theorem file_rewrite_patterns (attrs : List AttrEntry) :
    (FsOp.openForWrite uuidHandleMapFileName ∉ UpdateAttributeInfoFile attrs) ∧
    (hasNullHandle attrs = false →
      UpdateAttributeInfoFile attrs
        = [FsOp.readLines uuidHandleMapFileName,
           FsOp.openForWrite uuidHandleMapFileNameTemp,
           FsOp.removeFile uuidHandleMapFileName,
           FsOp.renameFile uuidHandleMapFileNameTemp uuidHandleMapFileName]) ∧
    UpdateNetworkConfigFile = [FsOp.openForWrite bleNetworkConfigFileName] := by
  refine ⟨?_, ?_, rfl⟩
  · intro hmem
    cases hnull : hasNullHandle attrs <;>
      simp [UpdateAttributeInfoFile, RenameSafely, hnull,
        uuidHandleMapFileName, uuidHandleMapFileNameTemp] at hmem
  · intro hnull
    simp [UpdateAttributeInfoFile, RenameSafely, hnull]

/-! ### The gateway command surface (`ximGateway.SetIntensity`) -/

/-- A gateway device as `SetIntensity` sees it. -/
structure XimDevice where
  idListIndex : Nat
  deviceId : List Nat
deriving Repr, DecidableEq

inductive GatewayFn where
  | broadcastLightLevel
  | broadcastIndicate
deriving Repr, DecidableEq

/-- One `commandQueue` entry: the buffered function, the target device id,
and the `values` dictionary of a light-level command (the intensity is a
number from the HTTP layer, modelled as a rational). -/
structure QueueEntry where
  fn : GatewayFn
  deviceId : List Nat
  light_level : ℚ
  fade_time : Nat
  response_time : Nat
  override_time : Nat
  lock_light_control : Bool
deriving Repr, DecidableEq

/-- `ximGateway.GetDeviceByDevIndex(ListIndex)`: first device whose
`IdListIndex` matches. -/
def GetDeviceByDevIndex (ximList : List XimDevice) (listIndex : Nat) :
    Option XimDevice :=
  ximList.find? fun device => device.idListIndex == listIndex

/-- `ximGateway.SetIntensity(IdListIndex, intensity)`: resolves the device
and, when found, appends a `BroadcastLightLevel` command with
`values = {light_level: intensity, fade_time: 1000, response_time: 1,
override_time: 0, lock_light_control: True}` to the single
`commandQueue`. The intensity itself is passed through unchecked. -/
def SetIntensity (ximList : List XimDevice) (commandQueue : List QueueEntry)
    (idListIndex : Nat) (intensity : ℚ) : List QueueEntry :=
  match GetDeviceByDevIndex ximList idListIndex with
  | some device => commandQueue
      ++ [{ fn := .broadcastLightLevel, deviceId := device.deviceId,
            light_level := intensity, fade_time := 1000, response_time := 1,
            override_time := 0, lock_light_control := true }]
  | none => commandQueue

/-- Counterexample to C9 as stated: a call with percent 101 — outside
[0, 100] — still enqueues a light-level command carrying that percent. -/
theorem setIntensity_out_of_range_enqueues :
    (SetIntensity [⟨0, [1, 2, 3, 4]⟩] [] 0 101).length = 1
      ∧ ∃ e ∈ SetIntensity [⟨0, [1, 2, 3, 4]⟩] [] 0 101,
          e.fn = GatewayFn.broadcastLightLevel ∧ e.light_level = 101
            ∧ ¬(0 ≤ e.light_level ∧ e.light_level ≤ 100) := by
  constructor
  · rfl
  · refine ⟨_, List.mem_singleton_self _, rfl, rfl, ?_⟩
    intro ⟨_, hle⟩
    norm_num at hle

/-- C9 (amended): `SetIntensity` validates only the target — when the
index resolves to a registered device it appends exactly one
`BroadcastLightLevel` command to the single FIFO command queue, carrying
the given percent unvalidated (out-of-range values included); when the
index resolves to no device, nothing is enqueued. -/
theorem setIntensity_spec (ximList : List XimDevice) (commandQueue : List QueueEntry)
    (idListIndex : Nat) (intensity : ℚ) :
    (∀ device, GetDeviceByDevIndex ximList idListIndex = some device →
      SetIntensity ximList commandQueue idListIndex intensity = commandQueue
        ++ [{ fn := .broadcastLightLevel, deviceId := device.deviceId,
              light_level := intensity, fade_time := 1000, response_time := 1,
              override_time := 0, lock_light_control := true }]) ∧
    (GetDeviceByDevIndex ximList idListIndex = none →
      SetIntensity ximList commandQueue idListIndex intensity = commandQueue) := by
  constructor
  · intro device h
    simp [SetIntensity, h]
  · intro h
    simp [SetIntensity, h]
